import Mathlib

/-!
Verification development for the waterbutler repository.

Shallow embedding conventions:
* Python strings are modelled as `List Char` (`Str`); a `String` literal is
  converted at the boundary with `String.toList`.
* Fallible Python code (`raise`) is modelled with `Except WBException`.
* Outbound HTTP traffic is modelled by a `Backend` oracle mapping a GET url to
  a status code; every provider operation additionally returns the list of
  urls it requested, so "no network call" is the empty trace.

Sources embedded:
* `waterbutler/core/utils.py` (`WaterButlerPath`);
* `waterbutler/providers/dryad/provider.py` (`DryadProvider`);
* `waterbutler/providers/owncloud/metadata.py` (owncloud metadata classes).
-/

deriving instance DecidableEq for Except

/-- Python strings are modelled as lists of characters. -/
abbrev Str := List Char

/-- Boundary coercion from a Lean string literal to the `List Char` model. -/
def toL (s : String) : Str := s.toList

/-- `path.startswith('/')` for a Python string. -/
def startsWithSlash : Str → Bool
  | [] => false
  | c :: _ => c == '/'

/-- `'//' in path` for a Python string: some two adjacent characters are both `'/'`. -/
def hasDoubleSlash : Str → Bool
  | [] => false
  | c :: rest => (c == '/' && startsWithSlash rest) || hasDoubleSlash rest

/-- `path.endswith('/')` for a Python string. -/
def endsWithSlash (s : Str) : Bool := s.getLast? == some '/'

/-- `path.rstrip('/')`: remove every trailing `'/'`. -/
def rstripSlash (s : Str) : Str := (s.reverse.dropWhile (fun c => c == '/')).reverse

/-- `path.lstrip('/')`: remove every leading `'/'`. -/
def lstripSlash (s : Str) : Str := s.dropWhile (fun c => c == '/')

/-- `path.strip('/')`: remove leading and trailing `'/'`. -/
def stripSlash (s : Str) : Str := rstripSlash (lstripSlash s)

/-- `path.split('/')` for a Python string (keeps empty components, as Python does:
`''.split('/') == ['']`, `'/'.split('/') == ['', '']`). -/
def splitSlash : Str → List Str
  | [] => [[]]
  | c :: rest =>
    if c = '/' then [] :: splitSlash rest
    else
      match splitSlash rest with
      | [] => [[c]]
      | h :: t => (c :: h) :: t

/-- `'/'.join(comps)` for a Python list of strings. -/
def joinSlash : List Str → Str
  | [] => []
  | [a] => a
  | a :: b :: t => a ++ '/' :: joinSlash (b :: t)

/-- One iteration of the component loop of CPython `posixpath.normpath`: drop
`''` and `'.'` components; append any other component unless it is `'..'` in a
position where it pops the previously kept component (the guard conditions are
those of the CPython source, including the `initial_slashes` cases); `append`
and `pop` act on the tail of the accumulator as in Python. -/
def normStep (initialSlashes : Nat) (newComps : List Str) (comp : Str) : List Str :=
  if comp = [] ∨ comp = ['.'] then newComps
  else if comp ≠ ['.', '.'] ∨ (initialSlashes = 0 ∧ newComps = []) ∨
      (newComps ≠ [] ∧ newComps.getLast? = some ['.', '.']) then
    newComps ++ [comp]
  else if newComps ≠ [] then newComps.dropLast
  else newComps

/-- The component loop of CPython `posixpath.normpath`. -/
def normSegs (initialSlashes : Nat) (comps : List Str) : List Str :=
  comps.foldl (normStep initialSlashes) []

/-- CPython `posixpath.normpath`, transcribed: empty path maps to `'.'`; the
number of initial slashes is preserved (two stay two, one and three-or-more
collapse to one); components are normalised by `normSegs`; an empty result maps
to `'.'`. -/
def normpath (path : Str) : Str :=
  if path = [] then ['.']
  else
    let initialSlashes : Nat :=
      if startsWithSlash path then
        if ['/', '/'].isPrefixOf path && !(['/', '/', '/'].isPrefixOf path) then 2 else 1
      else 0
    let joined := List.replicate initialSlashes '/' ++
      joinSlash (normSegs initialSlashes (splitSlash path))
    if joined = [] then ['.'] else joined

/-- `os.path.abspath` as reached by `WaterButlerPath._validate_path`: the call
site is guarded by the `startswith('/')` check, and on POSIX `abspath` of an
already-absolute path is exactly `posixpath.normpath`. -/
def os_path_abspath (path : Str) : Str := normpath path

/-- The error kinds of the spec's taxonomy, plus `PyValueError` for a raw
Python `ValueError` (used by `int()` on a malformed literal).
`WaterButlerPath._validate_path` raises `ValueError`s whose kinds the spec
names `EmptyPathError` (message `'Must specify path'`) and `InvalidPathError`
(message `'Invalid path ... specified'`, carrying the formatted path). -/
inductive WBException where
  | EmptyPathError
  | InvalidPathError (path : Str)
  | NotFoundError (path : Str)
  | MetadataError
  | DownloadError
  | ReadOnlyProviderError
  | PyValueError
deriving DecidableEq, Repr

/-- The canonical form compared against the input by `_validate_path`:
`os.path.abspath(path)`, with a trailing separator re-appended when the
original ends with one and is not `'/'`. -/
def canonicalized (path : Str) : Str :=
  let absolutePath := os_path_abspath path
  if ¬ path = ['/'] ∧ endsWithSlash path then absolutePath ++ ['/'] else absolutePath

/-- `WaterButlerPath._validate_path`, transcribed check for check. -/
def WaterButlerPath._validate_path (path : Str) : Except WBException Unit :=
  if path = [] then .error .EmptyPathError
  else if ¬ startsWithSlash path then .error (.InvalidPathError path)
  else if hasDoubleSlash path then .error (.InvalidPathError path)
  else if ¬ path = canonicalized path then .error (.InvalidPathError (canonicalized path))
  else .ok ()

/-- `WaterButlerPath` (waterbutler/core/utils.py): the fields assigned by
`__init__` after validation. `orig_path` is `_orig_path`, `parts` is
`_parts = path.rstrip('/').split('/')`, `is_dir` is `path.endswith('/')`,
`is_root` is `path == '/'`; `usePrefix`/`useSuffix` are the `prefix`/`suffix`
keyword options (renamed because of Lean keywords). -/
structure WaterButlerPath where
  orig_path : Str
  parts : List Str
  is_dir : Bool
  is_root : Bool
  usePrefix : Bool
  useSuffix : Bool
deriving DecidableEq, Repr

/-- `WaterButlerPath.__init__`: validate, then populate the fields. The Python
constructor raises on invalid input, so it is modelled in `Except`. -/
def WaterButlerPath.mk? (path : Str) (usePrefix useSuffix : Bool) :
    Except WBException WaterButlerPath :=
  match WaterButlerPath._validate_path path with
  | .error e => .error e
  | .ok _ => .ok {
      orig_path := path
      parts := splitSlash (rstripSlash path)
      is_dir := endsWithSlash path
      is_root := path == ['/']
      usePrefix := usePrefix
      useSuffix := useSuffix }

/-- `WaterButlerPath._format_path`: strip the leading separator when the
`prefix` option is off, and the trailing separator (for non-empty, non-root
renderings) when the `suffix` option is off. -/
def WaterButlerPath._format_path (usePrefix useSuffix : Bool) (path : Str) : Str :=
  let path1 := if usePrefix = false then lstripSlash path else path
  if path1 ≠ [] ∧ path1 ≠ ['/'] then
    (if useSuffix = false then rstripSlash path1 else path1)
  else path1

/-- The `path` property: `_format_path` applied to the original path (computed
once in `__init__` and stored as `_path`). -/
def WaterButlerPath.path (p : WaterButlerPath) : Str :=
  WaterButlerPath._format_path p.usePrefix p.useSuffix p.orig_path

/-- The `is_file` property: `not self._is_dir`. -/
def WaterButlerPath.is_file (p : WaterButlerPath) : Bool := ! p.is_dir

/-- The `name` property: `self._parts[-1]` (`_parts` is never empty for a
validated path, so the default is unreachable). -/
def WaterButlerPath.name (p : WaterButlerPath) : Str := p.parts.getLastD []

/-- The spec's "ordered sequence of path segments": the code's `_parts` minus
the leading empty component contributed by the leading separator
(`_parts[0] == ''` for every validated path, so root has zero segments while
`_parts == ['']`). -/
def WaterButlerPath.segments (p : WaterButlerPath) : List Str := p.parts.drop 1

/-- The `parent` property: a new instance built from
`'/'.join(self._parts[:-1]) + '/'` with the same `prefix`/`suffix` options.
Constructing can raise, hence `Except`. -/
def WaterButlerPath.parent (p : WaterButlerPath) : Except WBException WaterButlerPath :=
  WaterButlerPath.mk? (joinSlash p.parts.dropLast ++ ['/']) p.usePrefix p.useSuffix

/-- Modelled from the spec: the in-place `rename` observed during intra-copy
flows (design note §9: "a path being renamed in place during intra-copy",
"derive a new Path (with updated name, same parent segments and formatting
options)").  The class actually imported by the Dryad provider,
`waterbutler.core.path.WaterButlerPath`, is not among the sources; its
`rename` replaces the last element of `_parts` in place, which a pure model
expresses as the post-state of the mutated instance. -/
def WaterButlerPath.rename (p : WaterButlerPath) (newName : Str) : WaterButlerPath :=
  { p with parts := p.parts.dropLast ++ [newName] }

/-- Modelled from the spec: the fixed Dryad metadata endpoint
(`DRYAD_META_URL` in `waterbutler.providers.dryad.settings`, a module not
among the sources).  The spec only requires it to be fixed, opaque
configuration (§6 "each backend implementation issues HTTP/WebDAV requests to
its own fixed endpoints"); no claim depends on its concrete value. -/
def DRYAD_META_URL : Str := toL "https://datadryad.org/mn/object/doi:10.5061/dryad."

/-- An HTTP response as far as the embedded code inspects it. -/
structure HttpResponse where
  status : Nat
deriving DecidableEq, Repr

/-- The stubbed transport: a backend oracle mapping a GET url to a status. -/
abbrev Backend := Str → Nat

/-- Modelled from the spec: `BaseProvider.make_request`
(`waterbutler/core/provider.py`, not among the sources) issues one outbound
request and, per §7, fails with the given error kind when the response status
is outside `expects`. -/
def make_request (backend : Backend) (url : Str) (expects : List Nat)
    (throws : WBException) : Except WBException HttpResponse :=
  if backend url ∈ expects then .ok ⟨backend url⟩ else .error throws

/-- `DryadProvider` (waterbutler/providers/dryad/provider.py): fixed
configuration only (`self.doi = dryad_settings['doi']`). -/
structure DryadProvider where
  doi : Str
deriving DecidableEq, Repr

/-- `DryadProvider.validate_path`: construct a `WaterButlerPath` (provider
code uses the default `prefix=True, suffix=True`), accept root, reject a
two-part path that is not a directory and a three-part path that is not a
file with `NotFoundError(path)`.  The provider imports
`waterbutler.core.path.WaterButlerPath` (not among the sources); it is
modelled by the in-repo `WaterButlerPath` of core/utils.py, which the spec
presents as the single Path Model (the `len(parts)`, `is_dir`, `is_file`,
`is_root` accessors used here agree). -/
def DryadProvider.validate_path (d : DryadProvider) (path : Str) :
    Except WBException WaterButlerPath :=
  match WaterButlerPath.mk? path true true with
  | .error e => .error e
  | .ok wbpath =>
    if wbpath.is_root then .ok wbpath
    else if wbpath.parts.length = 2 ∧ wbpath.is_dir = false then
      .error (.NotFoundError path)
    else if wbpath.parts.length = 3 ∧ wbpath.is_file = false then
      .error (.NotFoundError path)
    else .ok wbpath

/-- The url queried by `validate_v1_path`:
`DRYAD_META_URL + parts[1].value`, plus `'/' + parts[2].value` for a file
(`parts[i].value` is the plain string in this model). -/
def DryadProvider.v1_full_url (wbpath : WaterButlerPath) : Str :=
  let u := DRYAD_META_URL ++ wbpath.parts.getD 1 []
  if wbpath.is_file then u ++ '/' :: wbpath.parts.getD 2 [] else u

/-- `DryadProvider.validate_v1_path`: syntactic validation via
`validate_path`, root accepted immediately with no request; otherwise one
authoritative GET with `expects=(200, 404)` throwing `MetadataError`, a 404
mapping to `NotFoundError(str(path))`.  The second component is the trace of
requested urls. -/
def DryadProvider.validate_v1_path (d : DryadProvider) (backend : Backend)
    (path : Str) : Except WBException WaterButlerPath × List Str :=
  match DryadProvider.validate_path d path with
  | .error e => (.error e, [])
  | .ok wbpath =>
    if wbpath.is_root then (.ok wbpath, [])
    else
      let full_url := DryadProvider.v1_full_url wbpath
      match make_request backend full_url [200, 404] WBException.MetadataError with
      | .error e => (.error e, [full_url])
      | .ok resp =>
        if resp.status = 404 then (.error (.NotFoundError path), [full_url])
        else (.ok wbpath, [full_url])

/-- `DryadProvider.upload(self, stream, **kwargs)`: unconditionally raises
`ReadOnlyProviderError`; the empty trace records that no request is made. -/
def DryadProvider.upload {σ κ : Type} (d : DryadProvider) (stream : σ)
    (kwargs : κ) : Except WBException Unit × List Str :=
  (.error .ReadOnlyProviderError, [])

/-- `DryadProvider.delete(self, **kwargs)`: unconditionally raises
`ReadOnlyProviderError` without any request. -/
def DryadProvider.delete {κ : Type} (d : DryadProvider) (kwargs : κ) :
    Except WBException Unit × List Str :=
  (.error .ReadOnlyProviderError, [])

/-- `DryadProvider.can_intra_move(self, other, path=None)`: unconditionally
raises `ReadOnlyProviderError` (a synchronous capability query — no request). -/
def DryadProvider.can_intra_move {π : Type} (d : DryadProvider) (other : π)
    (path : Option WaterButlerPath) : Except WBException Bool × List Str :=
  (.error .ReadOnlyProviderError, [])

/-- `DryadProvider.can_intra_copy(self, other, path=None)`: `return True` for
any destination provider and any path. -/
def DryadProvider.can_intra_copy {π : Type} (d : DryadProvider) (other : π)
    (path : Option WaterButlerPath) : Bool := true

/-- `DryadProvider.can_duplicate_names(self)`: `return False`. -/
def DryadProvider.can_duplicate_names (d : DryadProvider) : Bool := false

/-- The caller-visible effect of `DryadProvider._do_intra_move_or_copy` on its
path arguments: after the bitstream GET and `_file_metadata` (network steps
whose only use here is the resulting `file_metadata.name`, passed in as
`file_metadata_name`), the code executes `dest_path.rename(file_metadata.name)`
— an in-place mutation of the caller's `dest_path` — and uploads to that same
renamed path.  `upload_path` is the path handed to `dest_provider.upload`;
`dest_path_after` is the post-state of the instance the caller passed in. -/
structure IntraCopyEffect where
  upload_path : WaterButlerPath
  dest_path_after : WaterButlerPath
deriving DecidableEq, Repr

/-- `DryadProvider._do_intra_move_or_copy`, path effect (see
`IntraCopyEffect`). -/
def DryadProvider._do_intra_move_or_copy (d : DryadProvider)
    (file_metadata_name : Str) (src_path dest_path : WaterButlerPath) :
    IntraCopyEffect :=
  let renamed := WaterButlerPath.rename dest_path file_metadata_name
  { upload_path := renamed, dest_path_after := renamed }

/-- Python `int()` digit-string evaluation: nonempty all-digit run. -/
def digitsVal (ds : Str) : Option Nat :=
  if ds ≠ [] ∧ ds.all (fun c => c.isDigit) then
    some (ds.foldl (fun a c => a * 10 + (c.toNat - 48)) 0)
  else none

/-- Python `int(str)` on a plain decimal literal: surrounding whitespace
stripped, one optional sign, then digits; anything else raises `ValueError`.
(Underscore digit grouping, accepted by Python 3.6+, is not modelled; no
claim depends on it.) -/
def pyInt? (s : Str) : Option Int :=
  let t := ((s.dropWhile Char.isWhitespace).reverse.dropWhile Char.isWhitespace).reverse
  match t with
  | '-' :: ds => (digitsVal ds).map (fun n => -(n : Int))
  | '+' :: ds => (digitsVal ds).map (fun n => (n : Int))
  | ds => (digitsVal ds).map (fun n => (n : Int))

/-- Python `str(int)`: decimal rendering, `'-'`-prefixed when negative. -/
def pyStrOfInt (n : Int) : Str :=
  if n < 0 then '-' :: Nat.toDigits 10 n.natAbs else Nat.toDigits 10 n.natAbs

/-- The WebDAV attribute key `'\x7bDAV:\x7dgetcontentlength'`. -/
def davContentLength : Str := toL "\x7bDAV:\x7dgetcontentlength"

/-- The WebDAV attribute key `'\x7bDAV:\x7dgetcontenttype'`. -/
def davContentType : Str := toL "\x7bDAV:\x7dgetcontenttype"

/-- `BaseOwnCloudMetadata` (waterbutler/providers/owncloud/metadata.py):
`_href`, `_folder` and the WebDAV attribute bag (a string-keyed dict of
strings, modelled as an association list).  `OwnCloudFileMetadata` and
`OwnCloudFolderMetadata` add no state, only a `content_type` override each,
so all three share this carrier. -/
structure BaseOwnCloudMetadata where
  href : Str
  folder : Str
  attributes : List (Str × Str)
deriving DecidableEq, Repr

/-- The `name` property: `self._href.strip('/').split('/')[-1]`. -/
def BaseOwnCloudMetadata.name (m : BaseOwnCloudMetadata) : Str :=
  (splitSlash (stripSlash m.href)).getLastD []

/-- The `size` property:
`str(int(self.attributes['\x7bDAV:\x7dgetcontentlength']))` when the key is
present — note the result is a Python `str` — and `None` otherwise.
`int()` on a malformed attribute raises `ValueError`. -/
def BaseOwnCloudMetadata.size (m : BaseOwnCloudMetadata) :
    Except WBException (Option Str) :=
  match m.attributes.lookup davContentLength with
  | some v =>
    match pyInt? v with
    | some n => .ok (some (pyStrOfInt n))
    | none => .error .PyValueError
  | none => .ok none

/-- The integer parsed from the content-length attribute, when present and
well-formed: the value whose decimal rendering the `size` property returns. -/
def BaseOwnCloudMetadata.sizeIntVal (m : BaseOwnCloudMetadata) : Option Int :=
  (m.attributes.lookup davContentLength).bind pyInt?

/-- `OwnCloudFileMetadata.content_type`: the content-type attribute when
present, else `None` (`str()` of an attribute string is the identity). -/
def OwnCloudFileMetadata.content_type (m : BaseOwnCloudMetadata) : Option Str :=
  m.attributes.lookup davContentType

/-- `OwnCloudFolderMetadata.content_type`: the content-type attribute when
present, else the `'httpd/unix-directory'` default. -/
def OwnCloudFolderMetadata.content_type (m : BaseOwnCloudMetadata) : Str :=
  (m.attributes.lookup davContentType).getD (toL "httpd/unix-directory")

/-- A JSON value as far as the metadata result shape distinguishes them. -/
inductive JsonValue where
  | jstr (s : Str)
  | jint (n : Int)
  | jnull
deriving DecidableEq, Repr

/-- Whether a JSON value is an integer or null (the types the spec's result
shape allows for `size`). -/
def JsonValue.isIntOrNull : JsonValue → Bool
  | .jint _ => true
  | .jnull => true
  | .jstr _ => false

/-- A Python `str`-or-`None` property value as a JSON value. -/
def jsonOfOptStr : Option Str → JsonValue
  | some s => .jstr s
  | none => .jnull

/-- Modelled from the spec: the serialized metadata result shape returned to
the caller (§6), restricted to the fields the claims inspect.  The base
serialization lives in `waterbutler/core/metadata.py`, not among the sources;
per §3/§4.2 "size is present only for file kind", the file serialization
carries a `size` key (valued by the owncloud `size` property above) and the
folder serialization carries none. -/
def OwnCloudFileMetadata.serialized (m : BaseOwnCloudMetadata) :
    Except WBException (List (Str × JsonValue)) :=
  match m.size with
  | .error e => .error e
  | .ok sz => .ok
      [ (toL "name", .jstr m.name)
      , (toL "kind", .jstr (toL "file"))
      , (toL "size", jsonOfOptStr sz)
      , (toL "contentType", jsonOfOptStr (OwnCloudFileMetadata.content_type m)) ]

/-- Modelled from the spec: the folder-kind serialization (§6, §4.2) — no
`size` key. -/
def OwnCloudFolderMetadata.serialized (m : BaseOwnCloudMetadata) :
    List (Str × JsonValue) :=
  [ (toL "name", .jstr m.name)
  , (toL "kind", .jstr (toL "folder"))
  , (toL "contentType", .jstr (OwnCloudFolderMetadata.content_type m)) ]

/-- Proof-infrastructure predicate (not source code): a path component that
survives canonicalization unchanged — nonempty, not `'.'`, not `'..'`, free of
separators.  The characterization lemmas below show `_validate_path` accepts
exactly the strings assembled from such components. -/
def cleanSeg (c : Str) : Prop :=
  c ≠ [] ∧ c ≠ ['.'] ∧ c ≠ ['.', '.'] ∧ ∀ ch ∈ c, ch ≠ '/'

/-- Proof-infrastructure predicate: every component is clean. -/
def cleanSegs (segs : List Str) : Prop := ∀ c ∈ segs, cleanSeg c

/-- Proof-infrastructure predicate: the components `normStep` keeps verbatim. -/
def keepComp (c : Str) : Bool := !(c == [] || c == ['.'])

/-- A concrete Dryad provider instance for witnesses. -/
def dryadTestProvider : DryadProvider := { doi := toL "10.5061/dryad.4" }

/-- A stubbed backend that reports every url present. -/
def confirmAllBackend : Backend := fun _ => 200

/-- A stubbed backend that reports every url absent. -/
def notFoundBackend : Backend := fun _ => 404

/-- A stubbed backend with the two-level namespace of package `4` holding file
`YY`: the package url and the file url exist, everything else is absent. -/
def twoLevelBackend : Backend := fun url =>
  if url = DRYAD_META_URL ++ toL "4/YY" ∨ url = DRYAD_META_URL ++ toL "4" then 200
  else 404

/-- The validated path for raw input `"/x"` (default formatting options). -/
def destPathX : WaterButlerPath :=
  { orig_path := toL "/x", parts := [[], toL "x"], is_dir := false,
    is_root := false, usePrefix := true, useSuffix := true }

/-- The validated path for raw input `"/a/b"` (default formatting options). -/
def pathAB : WaterButlerPath :=
  { orig_path := toL "/a/b", parts := [[], toL "a", toL "b"], is_dir := false,
    is_root := false, usePrefix := true, useSuffix := true }

/-- The validated path for raw input `"/4/YY"` (default formatting options). -/
def path4YY : WaterButlerPath :=
  { orig_path := toL "/4/YY", parts := [[], toL "4", toL "YY"], is_dir := false,
    is_root := false, usePrefix := true, useSuffix := true }

/-- A concrete owncloud file metadata whose content-length attribute is `"42"`. -/
def ownCloudFile42 : BaseOwnCloudMetadata :=
  { href := toL "/folder/file.txt", folder := toL "/folder",
    attributes := [(davContentLength, toL "42")] }

-- Concrete sanity checks of the embedding against the Python semantics.
example : splitSlash (toL "/a/b") = [[], toL "a", toL "b"] := by decide
example : splitSlash (toL "/") = [[], []] := by decide
example : normpath (toL "/a/../b") = toL "/b" := by decide
example : normpath (toL "/..") = toL "/" := by decide
example : normpath (toL "/a/./b/") = toL "/a/b" := by decide
example : WaterButlerPath._validate_path (toL "/folder/file.txt") = .ok () := by decide
example : WaterButlerPath._validate_path (toL "/folder/") = .ok () := by decide
example : WaterButlerPath._validate_path [] = .error .EmptyPathError := by decide
example : WaterButlerPath._validate_path (toL "a/b") = .error (.InvalidPathError (toL "a/b")) := by decide
example : WaterButlerPath._validate_path (toL "/a//b") = .error (.InvalidPathError (toL "/a//b")) := by decide
example : WaterButlerPath._validate_path (toL "/a/../b") = .error (.InvalidPathError (toL "/b")) := by decide
example : (WaterButlerPath.mk? (toL "/a/b") true true).map WaterButlerPath.segments
    = .ok [toL "a", toL "b"] := by decide
example : (WaterButlerPath.mk? (toL "/") true true).bind WaterButlerPath.parent
    = WaterButlerPath.mk? (toL "/") true true := by decide

/-! ## Helper lemmas -/

/-- Unfolding a successful construction: validation succeeded and the result
is exactly the record `__init__` populates. -/
theorem mk?_ok_elim {path : Str} {f g : Bool} {p : WaterButlerPath}
    (h : WaterButlerPath.mk? path f g = .ok p) :
    WaterButlerPath._validate_path path = .ok () ∧
    p = { orig_path := path, parts := splitSlash (rstripSlash path),
          is_dir := endsWithSlash path, is_root := path == ['/'],
          usePrefix := f, useSuffix := g } := by
  unfold WaterButlerPath.mk? at h
  cases hv : WaterButlerPath._validate_path path <;> rw [hv] at h
  · exact absurd h (by simp)
  · exact ⟨rfl, (Except.ok.inj h).symm⟩

/-- A successful `DryadProvider.validate_path` returns the `WaterButlerPath`
built by the default-option constructor on the same raw string. -/
theorem dryad_validate_path_ok_elim {d : DryadProvider} {s : Str}
    {p : WaterButlerPath} (h : DryadProvider.validate_path d s = .ok p) :
    WaterButlerPath.mk? s true true = .ok p := by
  unfold DryadProvider.validate_path at h
  split at h
  · exact absurd h (by simp)
  · rename_i w hmk
    split at h
    · rw [hmk, Except.ok.inj h]
    · split at h
      · exact absurd h (by simp)
      · split at h
        · exact absurd h (by simp)
        · rw [hmk, Except.ok.inj h]

/-! ## Claim theorems (first batch) -/

/-- C3: the read-only Dryad provider's `upload` and `delete` operations and
its move-as-source capability query `can_intra_move` all fail with
`ReadOnlyProviderError` on every input, with an empty request trace — the
failure happens without any network call. -/
theorem dryad_read_only_ops_fail_without_network {σ κ π : Type}
    (d : DryadProvider) (stream : σ) (kwargs : κ) (other : π)
    (path : Option WaterButlerPath) :
    d.upload stream kwargs = (.error .ReadOnlyProviderError, []) ∧
    d.delete kwargs = (.error .ReadOnlyProviderError, []) ∧
    d.can_intra_move other path = (.error .ReadOnlyProviderError, []) :=
  ⟨rfl, rfl, rfl⟩

/-- C10: the Dryad capability queries are constant — `can_intra_copy` returns
`True` for every destination provider (of any type) and every path, and
`can_duplicate_names` returns `False`. -/
theorem dryad_capability_queries_constant {π : Type} (d : DryadProvider)
    (other : π) (path : Option WaterButlerPath) :
    d.can_intra_copy other path = true ∧ d.can_duplicate_names = false :=
  ⟨rfl, rfl⟩

/-- C2 (code bug evaluation): during a Dryad intra-copy with destination path
`"/x"` and a source file named `"data.csv"`, the destination `WaterButlerPath`
instance passed by the caller is renamed in place — its post-state differs
from the instance the caller supplied, contradicting the immutability the
spec states (and the spec itself flags this in-place rename as a bug). -/
theorem dryad_intra_copy_mutates_dest_path :
    WaterButlerPath.mk? (toL "/x") true true = .ok destPathX ∧
    (DryadProvider._do_intra_move_or_copy dryadTestProvider (toL "data.csv")
        destPathX destPathX).dest_path_after ≠ destPathX := by
  refine ⟨by decide, ?_⟩
  decide

/-- C4 (counterexample): requesting the parent of the root path does not fail
— it succeeds and returns the root path itself. -/
theorem root_parent_succeeds :
    (WaterButlerPath.mk? (toL "/") true true).bind WaterButlerPath.parent
      = WaterButlerPath.mk? (toL "/") true true ∧
    ((WaterButlerPath.mk? (toL "/") true true).bind WaterButlerPath.parent).isOk
      = true := by
  refine ⟨by decide, ?_⟩
  decide

/-- C4 (amended): the path constructed from `"/"` is root, is a directory and
has zero segments; its `parent` succeeds and is the root path itself (rather
than being undefined/failing). -/
theorem root_path_properties :
    (WaterButlerPath.mk? (toL "/") true true).map WaterButlerPath.is_root
      = .ok true ∧
    (WaterButlerPath.mk? (toL "/") true true).map WaterButlerPath.is_dir
      = .ok true ∧
    (WaterButlerPath.mk? (toL "/") true true).map WaterButlerPath.segments
      = .ok [] ∧
    (WaterButlerPath.mk? (toL "/") true true).bind WaterButlerPath.parent
      = WaterButlerPath.mk? (toL "/") true true := by
  refine ⟨by decide, by decide, by decide, ?_⟩
  decide

/-- C5 (counterexample): the round-trip fails for the option combination with
the leading separator disabled — `"/a"` formats to `"a"`, and re-parsing
`"a"` fails with `InvalidPathError` instead of yielding an equal path. -/
theorem format_reparse_fails_for_disabled_options :
    (WaterButlerPath.mk? (toL "/a") false true).map WaterButlerPath.path
      = .ok (toL "a") ∧
    WaterButlerPath.mk? (toL "a") false true
      = .error (.InvalidPathError (toL "a")) := by
  refine ⟨by decide, ?_⟩
  decide

/-- C8 (counterexample): against a backend confirming the existence of every
url, validating the raw input `"/4YY"` does not return a file path with
segments `["4", "YY"]` — it fails locally with `NotFoundError` (a one-segment
path without a trailing separator is rejected by the structural-depth rule
before any request is made). -/
theorem validate_v1_4YY_is_not_found :
    DryadProvider.validate_v1_path dryadTestProvider confirmAllBackend (toL "/4YY")
      = (.error (.NotFoundError (toL "/4YY")), []) := by
  decide

/-- C8 (amended): against the two-level backend (package `4`, file `YY`
present), validating `"/4/YY"` returns a file path with segments
`["4", "YY"]`, while validating `"/4/YY/"` (trailing separator on a
file-depth path) fails with `NotFoundError` from the structural-depth rule,
locally, without any request. -/
theorem validate_v1_two_level_scenario :
    ((DryadProvider.validate_v1_path dryadTestProvider twoLevelBackend
        (toL "/4/YY")).1).map (fun p => (p.is_file, p.segments))
      = .ok (true, [toL "4", toL "YY"]) ∧
    DryadProvider.validate_path dryadTestProvider (toL "/4/YY/")
      = .error (.NotFoundError (toL "/4/YY/")) ∧
    DryadProvider.validate_v1_path dryadTestProvider twoLevelBackend (toL "/4/YY/")
      = (.error (.NotFoundError (toL "/4/YY/")), []) := by
  refine ⟨by decide, by decide, ?_⟩
  decide

/-- C9 (counterexample): an owncloud file metadata whose content-length
attribute is `"42"` serializes its `size` field as the JSON *string*
`"42"`, which is neither an integer nor null. -/
theorem owncloud_size_serialized_as_string :
    (OwnCloudFileMetadata.serialized ownCloudFile42).map
        (fun l => l.lookup (toL "size"))
      = .ok (some (.jstr (toL "42"))) ∧
    JsonValue.isIntOrNull (.jstr (toL "42")) = false := by
  refine ⟨by decide, ?_⟩
  decide

/-- C1: constructing a `WaterButlerPath` from a raw string fails exactly for
the strings that are empty, do not start with `'/'`, contain `'//'`, or whose
canonical absolute-path resolution (trailing separator re-appended when the
original had one and the path is not `'/'`) differs from the literal input —
and succeeds for every other string; the empty string fails with the
`EmptyPathError` kind and every other failure is an `InvalidPathError`. -/
theorem wbpath_construction_characterization (path : Str) (f g : Bool) :
    ((∃ p, WaterButlerPath.mk? path f g = .ok p) ↔
      ¬(path = [] ∨ startsWithSlash path = false ∨ hasDoubleSlash path = true ∨
        path ≠ canonicalized path)) ∧
    (WaterButlerPath.mk? path f g = .error .EmptyPathError ↔ path = []) ∧
    ((∃ q, WaterButlerPath.mk? path f g = .error (.InvalidPathError q)) ↔
      (path ≠ [] ∧ (startsWithSlash path = false ∨ hasDoubleSlash path = true ∨
        path ≠ canonicalized path))) := by
  by_cases h1 : path = []
  · simp [WaterButlerPath.mk?, WaterButlerPath._validate_path, h1]
  · by_cases h2 : startsWithSlash path
    · by_cases h3 : hasDoubleSlash path
      · simp [WaterButlerPath.mk?, WaterButlerPath._validate_path, h1, h2, h3]
      · by_cases h4 : canonicalized path = path
        · simp [WaterButlerPath.mk?, WaterButlerPath._validate_path, h1, h2, h3, h4]
        · have h4' : ¬ path = canonicalized path := fun hh => h4 hh.symm
          simp [WaterButlerPath.mk?, WaterButlerPath._validate_path, h1, h2, h3,
            h4, h4']
    · simp [WaterButlerPath.mk?, WaterButlerPath._validate_path, h1, h2]

/-- C5 (amended): with both formatting options left at their defaults
(leading and trailing separator preserved), formatting a validly constructed
path and re-parsing the result reconstructs the very same path value. -/
theorem format_reparse_roundtrip_options_preserved (s : Str)
    (p : WaterButlerPath) (h : WaterButlerPath.mk? s true true = .ok p) :
    WaterButlerPath.mk? p.path true true = .ok p := by
  obtain ⟨hval, hp⟩ := mk?_ok_elim h
  have hpath : p.path = s := by
    rw [hp]
    simp [WaterButlerPath.path, WaterButlerPath._format_path]
  rw [hpath]
  exact h

/-- Witness for C5 (amended) at the concrete path `"/a/b"`. -/
theorem format_reparse_roundtrip_options_preserved_witness :
    WaterButlerPath.mk? (WaterButlerPath.path pathAB) true true = .ok pathAB :=
  format_reparse_roundtrip_options_preserved (toL "/a/b") pathAB (by decide)

/-- C7: for a syntactically valid non-root path, `validate_v1_path` performs
one authoritative lookup; a backend 404 yields `NotFoundError`, and a backend
200 returns the validated path, whose string form (`_orig_path`) equals the
normalized input. -/
theorem validate_v1_path_existence (d : DryadProvider) (backend : Backend)
    (s : Str) (p : WaterButlerPath)
    (hv : DryadProvider.validate_path d s = .ok p) (hroot : p.is_root = false) :
    (backend (DryadProvider.v1_full_url p) = 404 →
      DryadProvider.validate_v1_path d backend s
        = (.error (.NotFoundError s), [DryadProvider.v1_full_url p])) ∧
    (backend (DryadProvider.v1_full_url p) = 200 →
      DryadProvider.validate_v1_path d backend s
        = (.ok p, [DryadProvider.v1_full_url p]) ∧ p.orig_path = s) := by
  have horig : p.orig_path = s := by
    obtain ⟨-, hp⟩ := mk?_ok_elim (dryad_validate_path_ok_elim hv)
    rw [hp]
  constructor
  · intro h404
    unfold DryadProvider.validate_v1_path
    rw [hv]
    simp [hroot, make_request, h404]
  · intro h200
    refine ⟨?_, horig⟩
    unfold DryadProvider.validate_v1_path
    rw [hv]
    simp [hroot, make_request, h200]

/-- Witness for C7 at the concrete non-root path `"/4/YY"`, applied to both
an all-absent backend (404 branch) and the two-level backend (200 branch). -/
theorem validate_v1_path_existence_witness :
    DryadProvider.validate_v1_path dryadTestProvider notFoundBackend (toL "/4/YY")
      = (.error (.NotFoundError (toL "/4/YY")), [DryadProvider.v1_full_url path4YY]) ∧
    DryadProvider.validate_v1_path dryadTestProvider twoLevelBackend (toL "/4/YY")
      = (.ok path4YY, [DryadProvider.v1_full_url path4YY]) ∧
    path4YY.orig_path = toL "/4/YY" := by
  refine ⟨?_, ?_⟩
  · exact (validate_v1_path_existence dryadTestProvider notFoundBackend
      (toL "/4/YY") path4YY (by decide) (by decide)).1 (by decide)
  · exact (validate_v1_path_existence dryadTestProvider twoLevelBackend
      (toL "/4/YY") path4YY (by decide) (by decide)).2 (by decide)

/-! ## Splitting and joining lemmas -/

/-- `split` never returns an empty list (Python `split` always yields at least
one component). -/
theorem splitSlash_ne_nil (s : Str) : splitSlash s ≠ [] := by
  induction s with
  | nil => simp [splitSlash]
  | cons c rest ih =>
    by_cases hc : c = '/'
    · simp [splitSlash, hc]
    · cases h : splitSlash rest with
      | nil => exact absurd h ih
      | cons a t => simp [splitSlash, hc, h]

/-- Splitting after a leading separator prepends an empty component. -/
theorem splitSlash_cons_slash (s : Str) : splitSlash ('/' :: s) = [] :: splitSlash s := by
  simp [splitSlash]

/-- Every component produced by `split` is free of separators. -/
theorem splitSlash_all_not_slash (s : Str) :
    ∀ t ∈ splitSlash s, ∀ c ∈ t, c ≠ '/' := by
  induction s with
  | nil =>
    intro t ht
    simp [splitSlash] at ht
    simp [ht]
  | cons c rest ih =>
    intro t ht
    by_cases hc : c = '/'
    · rw [hc, splitSlash_cons_slash] at ht
      rcases List.mem_cons.mp ht with h | h
      · simp [h]
      · exact ih t h
    · cases hsp : splitSlash rest with
      | nil => exact absurd hsp (splitSlash_ne_nil rest)
      | cons a t' =>
        simp only [splitSlash, if_neg hc, hsp] at ht
        rcases List.mem_cons.mp ht with h | h
        · subst h
          intro ch hch
          rcases List.mem_cons.mp hch with h1 | h1
          · exact fun hslash => hc (h1 ▸ hslash)
          · exact ih a (hsp ▸ List.mem_cons_self a t') ch h1
        · exact ih t (hsp ▸ List.mem_cons.mpr (Or.inr h))

/-- Splitting a separator-free block followed by anything: the block fuses
with the first component of the remainder. -/
theorem splitSlash_append_not_slash (a s : Str) (ha : ∀ c ∈ a, c ≠ '/') :
    splitSlash (a ++ s) = (a ++ (splitSlash s).headD []) :: (splitSlash s).tail := by
  induction a with
  | nil =>
    cases h : splitSlash s with
    | nil => exact absurd h (splitSlash_ne_nil s)
    | cons x t => simp [h]
  | cons c a' ih =>
    have hc : c ≠ '/' := ha c (List.mem_cons_self _ _)
    have ih' := ih (fun x hx => ha x (List.mem_cons.mpr (Or.inr hx)))
    simp [splitSlash, hc, ih']

/-- Splitting a separator-free string yields that single component. -/
theorem splitSlash_not_slash (a : Str) (ha : ∀ c ∈ a, c ≠ '/') :
    splitSlash a = [a] := by
  have := splitSlash_append_not_slash a [] ha
  simpa [splitSlash] using this

/-- `split` is a left inverse of `join` on separator-free components. -/
theorem splitSlash_joinSlash (segs : List Str) (hne : segs ≠ [])
    (hsf : ∀ seg ∈ segs, ∀ c ∈ seg, c ≠ '/') :
    splitSlash (joinSlash segs) = segs := by
  induction segs with
  | nil => exact absurd rfl hne
  | cons a t ih =>
    cases t with
    | nil => exact splitSlash_not_slash a (hsf a (List.mem_cons_self _ _))
    | cons b t' =>
      have hrest : splitSlash (joinSlash (b :: t')) = b :: t' :=
        ih (by simp) (fun seg hseg => hsf seg (List.mem_cons.mpr (Or.inr hseg)))
      rw [joinSlash, splitSlash_append_not_slash a _ (hsf a (List.mem_cons_self _ _)),
        splitSlash_cons_slash, hrest]
      simp

/-- A nonempty block determines the start of an appended string. -/
theorem startsWithSlash_append (a s : Str) (ha : a ≠ []) :
    startsWithSlash (a ++ s) = startsWithSlash a := by
  cases a with
  | nil => exact absurd rfl ha
  | cons c t => rfl

/-- A separator-free string does not start with a separator. -/
theorem startsWithSlash_eq_false (a : Str) (ha : ∀ c ∈ a, c ≠ '/') :
    startsWithSlash a = false := by
  cases a with
  | nil => rfl
  | cons c t =>
    simp only [startsWithSlash]
    simp [ha c (List.mem_cons_self _ _)]

/-- A join headed by a nonempty separator-free component, with anything
appended, does not start with a separator. -/
theorem startsWithSlash_join_append (a : Str) (t : List Str) (x : Str)
    (ha : a ≠ []) (has : ∀ c ∈ a, c ≠ '/') :
    startsWithSlash (joinSlash (a :: t) ++ x) = false := by
  cases t with
  | nil =>
    rw [joinSlash, startsWithSlash_append a x ha]
    exact startsWithSlash_eq_false a has
  | cons b t' =>
    rw [joinSlash, List.append_assoc, startsWithSlash_append a _ ha]
    exact startsWithSlash_eq_false a has

/-- A separator-free block contributes no double separator. -/
theorem hasDoubleSlash_append_not_slash (a s : Str) (ha : ∀ c ∈ a, c ≠ '/') :
    hasDoubleSlash (a ++ s) = hasDoubleSlash s := by
  induction a with
  | nil => rfl
  | cons c a' ih =>
    have hc : c ≠ '/' := ha c (List.mem_cons_self _ _)
    simp [hasDoubleSlash, hc, ih (fun x hx => ha x (List.mem_cons.mpr (Or.inr hx)))]

/-- Joining nonempty separator-free components yields no double separator,
even with a trailing separator appended. -/
theorem hasDoubleSlash_joinSlash_append_slash (segs : List Str)
    (h : ∀ seg ∈ segs, seg ≠ [] ∧ ∀ c ∈ seg, c ≠ '/') :
    hasDoubleSlash (joinSlash segs ++ ['/']) = false := by
  induction segs with
  | nil => rfl
  | cons a t ih =>
    cases t with
    | nil =>
      rw [joinSlash, hasDoubleSlash_append_not_slash a _ (h a (List.mem_cons_self _ _)).2]
      rfl
    | cons b t' =>
      rw [joinSlash, List.append_assoc,
        hasDoubleSlash_append_not_slash a _ (h a (List.mem_cons_self _ _)).2]
      have hb := h b (List.mem_cons.mpr (Or.inr (List.mem_cons_self _ _)))
      have hrest := ih (fun seg hseg => h seg (List.mem_cons.mpr (Or.inr hseg)))
      have hstart : startsWithSlash (joinSlash (b :: t') ++ ['/']) = false :=
        startsWithSlash_join_append b t' ['/'] hb.1 hb.2
      simp [hasDoubleSlash, hstart, hrest]

/-- Joining nonempty separator-free components yields no double separator. -/
theorem hasDoubleSlash_joinSlash (segs : List Str)
    (h : ∀ seg ∈ segs, seg ≠ [] ∧ ∀ c ∈ seg, c ≠ '/') :
    hasDoubleSlash (joinSlash segs) = false := by
  induction segs with
  | nil => rfl
  | cons a t ih =>
    cases t with
    | nil =>
      have := hasDoubleSlash_append_not_slash a [] (h a (List.mem_cons_self _ _)).2
      simpa using this
    | cons b t' =>
      rw [joinSlash, hasDoubleSlash_append_not_slash a _ (h a (List.mem_cons_self _ _)).2]
      have hb := h b (List.mem_cons.mpr (Or.inr (List.mem_cons_self _ _)))
      have hrest := ih (fun seg hseg => h seg (List.mem_cons.mpr (Or.inr hseg)))
      have hstart : startsWithSlash (joinSlash (b :: t')) = false := by
        have := startsWithSlash_join_append b t' [] hb.1 hb.2
        simpa using this
      simp [hasDoubleSlash, hstart, hrest]

/-- `rstrip('/')` is the identity on a string not ending with a separator. -/
theorem rstripSlash_eq_self (s : Str) (h : s.getLast? ≠ some '/') :
    rstripSlash s = s := by
  unfold rstripSlash
  cases hr : s.reverse with
  | nil =>
    simp only [List.reverse_eq_nil_iff] at hr
    simp [hr]
  | cons c t =>
    have hc : c ≠ '/' := by
      intro hceq
      apply h
      rw [← List.head?_reverse, hr, hceq]
      rfl
    rw [List.dropWhile_cons, if_neg (by simp [hc]), ← hr, List.reverse_reverse]

/-- `rstrip('/')` absorbs a trailing separator. -/
theorem rstripSlash_append_slash (s : Str) :
    rstripSlash (s ++ ['/']) = rstripSlash s := by
  unfold rstripSlash
  rw [List.reverse_append]
  simp [List.dropWhile_cons]

/-- A nonempty list of clean components never ends in `'..'`. -/
theorem getLast?_ne_dotdot {l : List Str} (h : ∀ c ∈ l, cleanSeg c) :
    l.getLast? ≠ some ['.', '.'] := by
  intro hc
  obtain ⟨hne, heq⟩ :=
    List.mem_getLast?_eq_getLast (Option.mem_def.mpr hc)
  exact (h _ (List.getLast_mem hne)).2.2.1 heq.symm

/-- The join of nonempty components is nonempty. -/
theorem joinSlash_cons_ne_nil (a : Str) (t : List Str) (ha : a ≠ []) :
    joinSlash (a :: t) ≠ [] := by
  cases t with
  | nil => simpa [joinSlash] using ha
  | cons b t' => simp [joinSlash]

/-- The join of nonempty separator-free components does not end with a
separator. -/
theorem getLast?_joinSlash_ne_slash (segs : List Str) (hne : segs ≠ [])
    (h : ∀ seg ∈ segs, seg ≠ [] ∧ ∀ c ∈ seg, c ≠ '/') :
    (joinSlash segs).getLast? ≠ some '/' := by
  induction segs with
  | nil => exact absurd rfl hne
  | cons a t ih =>
    cases t with
    | nil =>
      intro hc
      obtain ⟨hne', heq⟩ :=
        List.mem_getLast?_eq_getLast (Option.mem_def.mpr (show (joinSlash [a]).getLast? = some '/' from hc))
      exact (h a (List.mem_cons_self _ _)).2 _ (List.getLast_mem hne') heq.symm
    | cons b t' =>
      have hb := h b (List.mem_cons.mpr (Or.inr (List.mem_cons_self _ _)))
      have hjb : joinSlash (b :: t') ≠ [] := joinSlash_cons_ne_nil b t' hb.1
      rw [joinSlash, List.getLast?_append_of_ne_nil a (by simp)]
      have : ('/' :: joinSlash (b :: t')) = ['/'] ++ joinSlash (b :: t') := rfl
      rw [this, List.getLast?_append_of_ne_nil _ hjb]
      exact ih (by simp) (fun seg hseg => h seg (List.mem_cons.mpr (Or.inr hseg)))

/-- Appending an empty final component realises a trailing separator. -/
theorem joinSlash_append_nil_elem (segs : List Str) (hne : segs ≠ []) :
    joinSlash (segs ++ [[]]) = joinSlash segs ++ ['/'] := by
  induction segs with
  | nil => exact absurd rfl hne
  | cons a t ih =>
    cases t with
    | nil => simp [joinSlash]
    | cons b t' =>
      have ih' : joinSlash (b :: (t' ++ [[]])) = joinSlash (b :: t') ++ ['/'] :=
        ih (by simp)
      show joinSlash (a :: b :: (t' ++ [[]])) = (a ++ '/' :: joinSlash (b :: t')) ++ ['/']
      rw [joinSlash, ih']
      simp [List.append_assoc]

/-! ## normpath lemmas -/

/-- On components that are empty or clean, the `normpath` loop (absolute case)
drops the empty ones and keeps the clean ones, in order. -/
theorem foldl_normStep_clean (comps : List Str)
    (h : ∀ c ∈ comps, c = [] ∨ cleanSeg c) :
    ∀ acc, comps.foldl (normStep 1) acc = acc ++ comps.filter keepComp := by
  induction comps with
  | nil => intro acc; simp
  | cons c cs ih =>
    intro acc
    have ih' := ih (fun x hx => h x (List.mem_cons.mpr (Or.inr hx)))
    rcases h c (List.mem_cons_self _ _) with hc | hc
    · subst hc
      rw [List.foldl_cons]
      have hstep : normStep 1 acc [] = acc := by simp [normStep]
      rw [hstep, ih']
      simp [List.filter_cons, keepComp]
    · rw [List.foldl_cons]
      have hstep : normStep 1 acc c = acc ++ [c] := by
        unfold normStep
        rw [if_neg (fun hor => hor.elim hc.1 hc.2.1), if_pos (Or.inl hc.2.2.1)]
      rw [hstep, ih', List.append_assoc]
      have hkeep : keepComp c = true := by
        simp [keepComp, hc.1, hc.2.1]
      simp [List.filter_cons, hkeep]

/-- In the absolute case, every component the `normpath` loop keeps is clean
(nonempty, not `'.'`, not `'..'`, separator-free), provided the incoming
components are separator-free and the accumulator is clean. -/
theorem foldl_normStep_all_clean (comps : List Str)
    (hsf : ∀ c ∈ comps, ∀ ch ∈ c, ch ≠ '/') :
    ∀ acc, (∀ c ∈ acc, cleanSeg c) →
      ∀ c ∈ comps.foldl (normStep 1) acc, cleanSeg c := by
  induction comps with
  | nil =>
    intro acc hacc
    simpa using hacc
  | cons c cs ih =>
    intro acc hacc
    rw [List.foldl_cons]
    apply ih (fun x hx => hsf x (List.mem_cons.mpr (Or.inr hx)))
    unfold normStep
    split
    · exact hacc
    · rename_i hnotskip
      push_neg at hnotskip
      split
      · rename_i hcond
        intro x hx
        rcases List.mem_append.mp hx with hxa | hxc
        · exact hacc x hxa
        · have hxc' : x = c := by simpa using hxc
          subst hxc'
          refine ⟨hnotskip.1, hnotskip.2, ?_, hsf x (List.mem_cons_self _ _)⟩
          rcases hcond with h1 | h2 | h3
          · exact h1
          · exact absurd h2.1 (by decide)
          · exact absurd h3.2 (getLast?_ne_dotdot hacc)
      · split
        · intro x hx
          exact hacc x (List.mem_of_mem_dropLast hx)
        · exact hacc

/-- Testing for a doubled leading separator after one leading separator. -/
theorem isPrefixOf_slash_slash (r : Str) :
    (['/', '/'].isPrefixOf ('/' :: r)) = startsWithSlash r := by
  cases r with
  | nil => rfl
  | cons c t =>
    show (('/' == '/') && (('/' == c) && ([] : Str).isPrefixOf t)) = (c == '/')
    have hcomm : ('/' == c) = (c == '/') := by
      by_cases h : c = '/'
      · simp [h]
      · simp [h, Ne.symm h]
    simp [List.isPrefixOf, hcomm]

/-- `normpath` on a nonempty absolute path with a single leading separator:
one separator plus the join of the loop's output. -/
theorem normpath_abs_eq (s : Str) (h1 : s ≠ []) (h2 : startsWithSlash s = true)
    (hpre : ['/', '/'].isPrefixOf s = false) :
    normpath s = '/' :: joinSlash (normSegs 1 (splitSlash s)) := by
  unfold normpath
  rw [if_neg h1]
  simp only [h2, if_true, hpre, Bool.false_and, if_false]
  simp [normSegs]

/-- `normpath` fixes a canonical absolute string without trailing separator. -/
theorem normpath_canonical_noslash (segs : List Str) (hclean : cleanSegs segs) :
    normpath ('/' :: joinSlash segs) = '/' :: joinSlash segs := by
  cases segs with
  | nil => decide
  | cons a t =>
    have ha := hclean a (List.mem_cons_self _ _)
    have hsf : ∀ seg ∈ (a :: t), ∀ c ∈ seg, c ≠ '/' :=
      fun seg hseg => (hclean seg hseg).2.2.2
    have hpre : ['/', '/'].isPrefixOf ('/' :: joinSlash (a :: t)) = false := by
      rw [isPrefixOf_slash_slash]
      have := startsWithSlash_join_append a t [] ha.1 ha.2.2.2
      simpa using this
    rw [normpath_abs_eq _ (by simp) (by rfl) hpre]
    have hsplit : splitSlash ('/' :: joinSlash (a :: t)) = [] :: (a :: t) := by
      rw [splitSlash_cons_slash, splitSlash_joinSlash (a :: t) (by simp) hsf]
    have hall : ∀ c ∈ ([] :: (a :: t) : List Str), c = [] ∨ cleanSeg c := by
      intro c hc
      rcases List.mem_cons.mp hc with h | h
      · exact Or.inl h
      · exact Or.inr (hclean c h)
    have hfilter : (([] : Str) :: (a :: t)).filter keepComp = a :: t := by
      rw [List.filter_cons, if_neg (by decide)]
      exact List.filter_eq_self.mpr (fun x hx => by
        have hx' := hclean x hx
        simp [keepComp, hx'.1, hx'.2.1])
    have hns : normSegs 1 ([] :: (a :: t)) = a :: t := by
      show (([] : Str) :: (a :: t)).foldl (normStep 1) [] = a :: t
      rw [foldl_normStep_clean ([] :: (a :: t)) hall [], List.nil_append, hfilter]
    rw [hsplit, hns]

/-- `normpath` strips exactly the trailing separator of a canonical absolute
directory string. -/
theorem normpath_canonical_slash (segs : List Str) (hne : segs ≠ [])
    (hclean : cleanSegs segs) :
    normpath ('/' :: (joinSlash segs ++ ['/'])) = '/' :: joinSlash segs := by
  cases segs with
  | nil => exact absurd rfl hne
  | cons a t =>
    have ha := hclean a (List.mem_cons_self _ _)
    have hpre : ['/', '/'].isPrefixOf ('/' :: (joinSlash (a :: t) ++ ['/'])) = false := by
      rw [isPrefixOf_slash_slash]
      exact startsWithSlash_join_append a t ['/'] ha.1 ha.2.2.2
    rw [normpath_abs_eq _ (by simp) (by rfl) hpre]
    have hsfx : ∀ seg ∈ (a :: t) ++ [[]], ∀ c ∈ seg, c ≠ '/' := by
      intro seg hseg
      rcases List.mem_append.mp hseg with h | h
      · exact (hclean seg h).2.2.2
      · simp at h
        simp [h]
    have hjoin : joinSlash (a :: t) ++ ['/'] = joinSlash ((a :: t) ++ [[]]) :=
      (joinSlash_append_nil_elem (a :: t) (by simp)).symm
    have hsplit : splitSlash ('/' :: (joinSlash (a :: t) ++ ['/']))
        = [] :: ((a :: t) ++ [[]]) := by
      rw [hjoin, splitSlash_cons_slash,
        splitSlash_joinSlash ((a :: t) ++ [[]]) (by simp) hsfx]
    have hall : ∀ c ∈ ([] :: ((a :: t) ++ [[]]) : List Str), c = [] ∨ cleanSeg c := by
      intro c hc
      rcases List.mem_cons.mp hc with h | h
      · exact Or.inl h
      · rcases List.mem_append.mp h with h' | h'
        · exact Or.inr (hclean c h')
        · simp at h'
          exact Or.inl h'
    have hfilter : (([] : Str) :: ((a :: t) ++ [[]])).filter keepComp = a :: t := by
      rw [List.filter_cons, if_neg (by decide), List.filter_append]
      rw [List.filter_eq_self.mpr (fun x hx => by
        have hx' := hclean x hx
        simp [keepComp, hx'.1, hx'.2.1])]
      simp [List.filter_cons, keepComp]
    have hns : normSegs 1 ([] :: ((a :: t) ++ [[]])) = a :: t := by
      show (([] : Str) :: ((a :: t) ++ [[]])).foldl (normStep 1) [] = a :: t
      rw [foldl_normStep_clean _ hall [], List.nil_append, hfilter]
    rw [hsplit, hns]

/-- A string appended with a separator ends with a separator. -/
theorem endsWithSlash_append_slash (x : Str) : endsWithSlash (x ++ ['/']) = true := by
  unfold endsWithSlash
  rw [List.getLast?_append_of_ne_nil _ (by simp)]
  rfl

/-- Sufficiency, no trailing separator: a canonical absolute string built from
clean components passes validation. -/
theorem validate_ok_of_canonical_noslash (segs : List Str) (hclean : cleanSegs segs) :
    WaterButlerPath._validate_path ('/' :: joinSlash segs) = .ok () := by
  cases segs with
  | nil => decide
  | cons a t =>
    have ha := hclean a (List.mem_cons_self _ _)
    have hnn : ∀ seg ∈ (a :: t), seg ≠ [] ∧ ∀ c ∈ seg, c ≠ '/' :=
      fun seg hseg => ⟨(hclean seg hseg).1, (hclean seg hseg).2.2.2⟩
    have hds : hasDoubleSlash ('/' :: joinSlash (a :: t)) = false := by
      have h1 : startsWithSlash (joinSlash (a :: t)) = false := by
        have := startsWithSlash_join_append a t [] ha.1 ha.2.2.2
        simpa using this
      have h2 : hasDoubleSlash (joinSlash (a :: t)) = false :=
        hasDoubleSlash_joinSlash _ hnn
      simp [hasDoubleSlash, h1, h2]
    have hlast : ('/' :: joinSlash (a :: t)).getLast? ≠ some '/' := by
      have hj : joinSlash (a :: t) ≠ [] := joinSlash_cons_ne_nil a t ha.1
      have hshape : ('/' :: joinSlash (a :: t)) = ['/'] ++ joinSlash (a :: t) := rfl
      rw [hshape, List.getLast?_append_of_ne_nil _ hj]
      exact getLast?_joinSlash_ne_slash _ (by simp) hnn
    have hend : endsWithSlash ('/' :: joinSlash (a :: t)) = false := by
      simp [endsWithSlash, hlast]
    have hcanon : canonicalized ('/' :: joinSlash (a :: t)) = '/' :: joinSlash (a :: t) := by
      unfold canonicalized os_path_abspath
      rw [if_neg (by simp [hend])]
      exact normpath_canonical_noslash _ hclean
    unfold WaterButlerPath._validate_path
    rw [if_neg (by simp), if_neg (by simp [startsWithSlash]), if_neg (by simp [hds]),
      if_neg (by simp [hcanon])]

/-- Sufficiency, trailing separator: a canonical absolute directory string
built from clean components passes validation. -/
theorem validate_ok_of_canonical_slash (segs : List Str) (hne : segs ≠ [])
    (hclean : cleanSegs segs) :
    WaterButlerPath._validate_path ('/' :: (joinSlash segs ++ ['/'])) = .ok () := by
  cases segs with
  | nil => exact absurd rfl hne
  | cons a t =>
    have ha := hclean a (List.mem_cons_self _ _)
    have hnn : ∀ seg ∈ (a :: t), seg ≠ [] ∧ ∀ c ∈ seg, c ≠ '/' :=
      fun seg hseg => ⟨(hclean seg hseg).1, (hclean seg hseg).2.2.2⟩
    have hds : hasDoubleSlash ('/' :: (joinSlash (a :: t) ++ ['/'])) = false := by
      have h1 : startsWithSlash (joinSlash (a :: t) ++ ['/']) = false :=
        startsWithSlash_join_append a t ['/'] ha.1 ha.2.2.2
      have h2 := hasDoubleSlash_joinSlash_append_slash (a :: t) hnn
      simp [hasDoubleSlash, h1, h2]
    have hend : endsWithSlash ('/' :: (joinSlash (a :: t) ++ ['/'])) = true := by
      have hshape : ('/' :: (joinSlash (a :: t) ++ ['/']))
          = ('/' :: joinSlash (a :: t)) ++ ['/'] := by simp
      rw [hshape]
      exact endsWithSlash_append_slash _
    have hner : ('/' :: (joinSlash (a :: t) ++ ['/'])) ≠ ['/'] := by simp
    have hcanon : canonicalized ('/' :: (joinSlash (a :: t) ++ ['/']))
        = '/' :: (joinSlash (a :: t) ++ ['/']) := by
      unfold canonicalized os_path_abspath
      rw [if_pos ⟨hner, hend⟩, normpath_canonical_slash (a :: t) (by simp) hclean]
      simp
    unfold WaterButlerPath._validate_path
    rw [if_neg (by simp), if_neg (by simp [startsWithSlash]), if_neg (by simp [hds]),
      if_neg (by simp [hcanon])]

/-- Necessity: every string accepted by `_validate_path` is a single leading
separator, a join of clean components, and an optional trailing separator. -/
theorem validate_ok_structure (s : Str)
    (h : WaterButlerPath._validate_path s = .ok ()) :
    ∃ segs, cleanSegs segs ∧
      (s = '/' :: joinSlash segs ∨
        (segs ≠ [] ∧ s = '/' :: (joinSlash segs ++ ['/']))) := by
  unfold WaterButlerPath._validate_path at h
  by_cases h1 : s = []
  · rw [if_pos h1] at h
    exact absurd h (by simp)
  rw [if_neg h1] at h
  by_cases h2 : startsWithSlash s = true
  case neg =>
    rw [if_pos h2] at h
    exact absurd h (by simp)
  rw [if_neg (not_not_intro h2)] at h
  by_cases h3 : hasDoubleSlash s = true
  · rw [if_pos h3] at h
    exact absurd h (by simp)
  rw [if_neg h3] at h
  by_cases h4 : s = canonicalized s
  case neg =>
    rw [if_pos h4] at h
    exact absurd h (by simp)
  obtain ⟨r, rfl⟩ : ∃ r, s = '/' :: r := by
    cases s with
    | nil => exact absurd rfl h1
    | cons c r =>
      have hc : c = '/' := by simpa [startsWithSlash] using h2
      exact ⟨r, by rw [hc]⟩
  replace h3 : hasDoubleSlash ('/' :: r) = false := by
    exact Bool.not_eq_true _ ▸ eq_false_of_ne_true h3
  have hsw_r : startsWithSlash r = false ∧ hasDoubleSlash r = false := by
    have := h3
    simp [hasDoubleSlash] at this
    exact ⟨by simpa using this.1, by simpa using this.2⟩
  have hpre : ['/', '/'].isPrefixOf ('/' :: r) = false := by
    rw [isPrefixOf_slash_slash]
    exact hsw_r.1
  have hnorm : normpath ('/' :: r)
      = '/' :: joinSlash (normSegs 1 (splitSlash ('/' :: r))) :=
    normpath_abs_eq _ (by simp) (by rfl) hpre
  have hclean : cleanSegs (normSegs 1 (splitSlash ('/' :: r))) := by
    intro c hc
    exact foldl_normStep_all_clean (splitSlash ('/' :: r))
      (splitSlash_all_not_slash _) [] (by simp) c hc
  refine ⟨normSegs 1 (splitSlash ('/' :: r)), hclean, ?_⟩
  have h4' : ('/' :: r) = canonicalized ('/' :: r) := h4
  unfold canonicalized os_path_abspath at h4'
  by_cases hend : ¬('/' :: r) = ['/'] ∧ endsWithSlash ('/' :: r) = true
  · rw [if_pos hend, hnorm] at h4'
    right
    refine ⟨?_, h4'⟩
    intro hnil
    rw [hnil] at h4'
    have hss : ('/' :: r) = ['/', '/'] := by simpa [joinSlash] using h4'
    rw [hss] at h3
    exact absurd h3 (by decide)
  · rw [if_neg hend, hnorm] at h4'
    exact Or.inl h4'

/-- The `_parts` of a validated path: the empty leading component followed by
the clean components, for both the plain and the trailing-separator form. -/
theorem parts_of_valid (segs : List Str) (hclean : cleanSegs segs) (hne : segs ≠ []) :
    splitSlash (rstripSlash ('/' :: joinSlash segs)) = [] :: segs ∧
    splitSlash (rstripSlash ('/' :: (joinSlash segs ++ ['/']))) = [] :: segs := by
  cases segs with
  | nil => exact absurd rfl hne
  | cons a t =>
    have ha := hclean a (List.mem_cons_self _ _)
    have hnn : ∀ seg ∈ (a :: t), seg ≠ [] ∧ ∀ c ∈ seg, c ≠ '/' :=
      fun seg hseg => ⟨(hclean seg hseg).1, (hclean seg hseg).2.2.2⟩
    have hsf : ∀ seg ∈ (a :: t), ∀ c ∈ seg, c ≠ '/' :=
      fun seg hseg => (hclean seg hseg).2.2.2
    have hlast : ('/' :: joinSlash (a :: t)).getLast? ≠ some '/' := by
      have hj : joinSlash (a :: t) ≠ [] := joinSlash_cons_ne_nil a t ha.1
      have hshape : ('/' :: joinSlash (a :: t)) = ['/'] ++ joinSlash (a :: t) := rfl
      rw [hshape, List.getLast?_append_of_ne_nil _ hj]
      exact getLast?_joinSlash_ne_slash _ (by simp) hnn
    have hid : rstripSlash ('/' :: joinSlash (a :: t)) = '/' :: joinSlash (a :: t) :=
      rstripSlash_eq_self _ hlast
    constructor
    · rw [hid, splitSlash_cons_slash, splitSlash_joinSlash _ (by simp) hsf]
    · have hshape : ('/' :: (joinSlash (a :: t) ++ ['/']))
          = ('/' :: joinSlash (a :: t)) ++ ['/'] := by simp
      rw [hshape, rstripSlash_append_slash, hid, splitSlash_cons_slash,
        splitSlash_joinSlash _ (by simp) hsf]

/-- Constructing from a string that validates yields exactly the `__init__`
record. -/
theorem mk?_ok_of_validate (s : Str) (f g : Bool)
    (hv : WaterButlerPath._validate_path s = .ok ()) :
    WaterButlerPath.mk? s f g
      = Except.ok ({ orig_path := s, parts := splitSlash (rstripSlash s),
                     is_dir := endsWithSlash s, is_root := s == ['/'],
                     usePrefix := f, useSuffix := g } : WaterButlerPath) := by
  unfold WaterButlerPath.mk?
  rw [hv]

/-- C6: for every validly constructed non-root path, `parent` succeeds; its
`_parts` are the original `_parts` with the last element removed (hence its
segment sequence is the original segment sequence with the last element
removed), it is always a directory, and it carries the same `prefix`/`suffix`
formatting options as the original. -/
theorem parent_drops_last_segment (s : Str) (f g : Bool) (p : WaterButlerPath)
    (h : WaterButlerPath.mk? s f g = .ok p) (hroot : p.is_root = false) :
    p.parent.map (fun q => (q.parts, q.segments, q.is_dir, q.usePrefix, q.useSuffix))
      = .ok (p.parts.dropLast, p.segments.dropLast, true, p.usePrefix, p.useSuffix) := by
  obtain ⟨hval, hp⟩ := mk?_ok_elim h
  have hsne : s ≠ ['/'] := by
    intro hs
    rw [hp] at hroot
    simp [hs] at hroot
  obtain ⟨segs, hclean, hshape⟩ := validate_ok_structure s hval
  have hsegs_ne : segs ≠ [] := by
    rcases hshape with hcase | hcase
    · intro hnil
      apply hsne
      rw [hcase, hnil]
      rfl
    · exact hcase.1
  have hparts : p.parts = [] :: segs := by
    rcases hshape with hcase | hcase
    · rw [hp]
      show splitSlash (rstripSlash s) = [] :: segs
      rw [hcase]
      exact (parts_of_valid segs hclean hsegs_ne).1
    · rw [hp]
      show splitSlash (rstripSlash s) = [] :: segs
      rw [hcase.2]
      exact (parts_of_valid segs hclean hsegs_ne).2
  have hdrop : p.parts.dropLast = [] :: segs.dropLast := by
    rw [hparts]
    cases segs with
    | nil => exact absurd rfl hsegs_ne
    | cons a t => rfl
  have hpseg : p.segments = segs := by
    unfold WaterButlerPath.segments
    rw [hparts]
    rfl
  have hcleandrop : cleanSegs segs.dropLast :=
    fun c hc => hclean c (List.mem_of_mem_dropLast hc)
  have hpd : p.parent = WaterButlerPath.mk?
      (joinSlash ([] :: segs.dropLast) ++ ['/']) p.usePrefix p.useSuffix := by
    unfold WaterButlerPath.parent
    rw [hdrop]
  cases hsd : segs.dropLast with
  | nil =>
    rw [hsd] at hpd
    have hpq : p.parent = Except.ok (⟨['/'], splitSlash (rstripSlash ['/']),
        endsWithSlash ['/'], ['/'] == ['/'], p.usePrefix, p.useSuffix⟩ : WaterButlerPath) :=
      hpd.trans (mk?_ok_of_validate ['/'] p.usePrefix p.useSuffix (by decide))
    rw [hpq, hdrop, hpseg, hsd]
    rfl
  | cons b t' =>
    have hcleanbt : cleanSegs (b :: t') := hsd ▸ hcleandrop
    have hvp : WaterButlerPath._validate_path
        ('/' :: (joinSlash (b :: t') ++ ['/'])) = .ok () :=
      validate_ok_of_canonical_slash (b :: t') (by simp) hcleanbt
    rw [hsd] at hpd
    have hpq : p.parent = Except.ok (⟨'/' :: (joinSlash (b :: t') ++ ['/']),
        splitSlash (rstripSlash ('/' :: (joinSlash (b :: t') ++ ['/']))),
        endsWithSlash ('/' :: (joinSlash (b :: t') ++ ['/'])),
        ('/' :: (joinSlash (b :: t') ++ ['/'])) == ['/'],
        p.usePrefix, p.useSuffix⟩ : WaterButlerPath) :=
      hpd.trans (mk?_ok_of_validate _ p.usePrefix p.useSuffix hvp)
    have hqparts : splitSlash (rstripSlash ('/' :: (joinSlash (b :: t') ++ ['/'])))
        = [] :: (b :: t') :=
      (parts_of_valid (b :: t') hcleanbt (by simp)).2
    have hqdir : endsWithSlash ('/' :: (joinSlash (b :: t') ++ ['/'])) = true := by
      have hshape2 : ('/' :: (joinSlash (b :: t') ++ ['/']))
          = ('/' :: joinSlash (b :: t')) ++ ['/'] := by simp
      rw [hshape2]
      exact endsWithSlash_append_slash _
    rw [hpq, hdrop, hpseg, hsd]
    show Except.ok _ = Except.ok _
    rw [Except.ok.injEq]
    refine Prod.ext ?_ (Prod.ext ?_ (Prod.ext ?_ rfl))
    · exact hqparts
    · show (splitSlash (rstripSlash ('/' :: (joinSlash (b :: t') ++ ['/'])))).drop 1
        = b :: t'
      rw [hqparts]
      rfl
    · exact hqdir

/-- Witness for C6 at the concrete non-root path `"/a/b"`. -/
theorem parent_drops_last_segment_witness :
    pathAB.parent.map
        (fun q => (q.parts, q.segments, q.is_dir, q.usePrefix, q.useSuffix))
      = .ok (pathAB.parts.dropLast, pathAB.segments.dropLast, true,
          pathAB.usePrefix, pathAB.useSuffix) :=
  parent_drops_last_segment (toL "/a/b") true true pathAB (by decide) (by decide)

/-- C9 (amended): in the serialized result shape, the size field is present
only for file kind (the folder serialization has no size key), and when the
size property evaluates and is present it is the decimal *string* rendering
of the integer parsed from the backend's content-length attribute — never a
bare integer. -/
theorem owncloud_size_decimal_string_or_absent (m : BaseOwnCloudMetadata)
    (s : Str) (h : m.size = .ok (some s)) :
    m.sizeIntVal.map pyStrOfInt = some s ∧
    (OwnCloudFolderMetadata.serialized m).lookup (toL "size") = none ∧
    (OwnCloudFileMetadata.serialized m).map (fun l => l.lookup (toL "size"))
      = .ok (some (.jstr s)) := by
  unfold BaseOwnCloudMetadata.size at h
  split at h
  · rename_i v hv
    split at h
    · rename_i n hp
      have hs : pyStrOfInt n = s := by simpa using h
      subst hs
      refine ⟨?_, ?_, ?_⟩
      · unfold BaseOwnCloudMetadata.sizeIntVal
        simp [hv, hp]
      · unfold OwnCloudFolderMetadata.serialized
        have h1 : (toL "size" == toL "name") = false := by decide
        have h2 : (toL "size" == toL "kind") = false := by decide
        have h3 : (toL "size" == toL "contentType") = false := by decide
        simp [List.lookup, h1, h2, h3]
      · unfold OwnCloudFileMetadata.serialized BaseOwnCloudMetadata.size
        have h1 : (toL "size" == toL "name") = false := by decide
        have h2 : (toL "size" == toL "kind") = false := by decide
        have h4 : (toL "size" == toL "size") = true := by decide
        simp [hv, hp, Except.map, List.lookup, h1, h2, h4, jsonOfOptStr]
    · exact absurd h (by simp)
  · exact absurd h (by simp)

/-- Witness for C9 (amended) at the concrete file metadata with
content-length attribute `"42"`. -/
theorem owncloud_size_decimal_string_or_absent_witness :
    (BaseOwnCloudMetadata.sizeIntVal ownCloudFile42).map pyStrOfInt
      = some (toL "42") ∧
    (OwnCloudFolderMetadata.serialized ownCloudFile42).lookup (toL "size")
      = none ∧
    (OwnCloudFileMetadata.serialized ownCloudFile42).map
        (fun l => l.lookup (toL "size"))
      = .ok (some (.jstr (toL "42"))) :=
  owncloud_size_decimal_string_or_absent ownCloudFile42 (toL "42") (by decide)
